import Mathlib

/-!
Shallow embedding of `src/Timer.ts` (package `@wessberg/timer`).

A `Timer` instance is a timed task built over the host's `setTimeout` /
`setInterval` primitives.  The module keeps three pieces of global state:

* `TIMERS : Set<ITimer>` — the registry of constructed, not-yet-cleared timers;
* `UUID_MAP : WeakMap<ITimer, UUID>` — the native-handle entry per timer;
* `PROMISE_RESOLVE_FUNCTION_MAP : WeakMap<ITimer, Function>` — the stored
  resolve function of the pending completion promise per timer.

The embedding models the whole mutable state as a `World`:

* each timer instance is a numeric id; its per-instance fields (`repeat`,
  `isRunning`) together with its entries in the two weak maps and a count of
  callback invocations form a `TimerState`, kept in an association list;
* the host's native timer table is the list `armedNative` of native ids that
  are currently armed; `setTimeout`/`setInterval` allocate fresh native ids,
  `clearTimeout`/`clearInterval` and the natural firing of a one-shot remove
  them;
* promises are numeric ids allocated by `run`; `resolved` is the list of
  promise ids whose resolve function has been called.

All code runs on the host's single cooperative thread, so every method of the
source is one atomic state transformation here; the asynchronous events
(natural firings of armed native timers) are separate transformations
(`fireTimeout`, `fireInterval`) with explicit enabledness guards.
-/

namespace TimerSpec

/-- Per-instance state of one `Timer`: the constructor flag `repeat` (called
`repeats` here), the public `isRunning` field, the `UUID_MAP` entry (`uuid`),
the `PROMISE_RESOLVE_FUNCTION_MAP` entry (`pending`, holding the id of the
promise the stored resolve function belongs to), and the number of times the
user callback has been invoked. -/
structure TimerState where
  repeats : Bool
  isRunning : Bool
  uuid : Option Nat
  pending : Option Nat
  count : Nat
deriving DecidableEq

/-- State of a freshly constructed `Timer(callback, duration, rep)`. -/
def TimerState.initial (rep : Bool) : TimerState :=
  { repeats := rep, isRunning := false, uuid := none, pending := none, count := 0 }

/-- The whole mutable state: the `TIMERS` registry (ids, insertion order), the
per-instance states, the host's table of armed native timers, the resolved
promise ids, and three fresh-id counters. -/
structure World where
  timers : List Nat
  states : List (Nat × TimerState)
  armedNative : List Nat
  resolved : List Nat
  nextTask : Nat
  nextUuid : Nat
  nextPromise : Nat
deriving DecidableEq

/-- The empty initial world: no timers constructed, nothing armed. -/
def World.initial : World :=
  { timers := [], states := [], armedNative := [], resolved := [],
    nextTask := 0, nextUuid := 0, nextPromise := 0 }

/-- Keyed read in the per-instance map (a missing entry reads as a default
idle state; it is only ever consulted for constructed ids). -/
def stateOf (l : List (Nat × TimerState)) (t : Nat) : TimerState :=
  match l.lookup t with
  | some s => s
  | none => TimerState.initial false

/-- Read a timer's state. -/
def getState (w : World) (t : Nat) : TimerState :=
  stateOf w.states t

/-- Write a timer's state (the newest entry shadows older ones; the maps are
never iterated, only keyed reads occur). -/
def setState (w : World) (t : Nat) (s : TimerState) : World :=
  { w with states := (t, s) :: w.states }

namespace Timer

/-- `private get hasTimer`: `UUID_MAP.get(this) != null`. -/
def hasTimer (w : World) (t : Nat) : Bool :=
  ((getState w t).uuid).isSome

/-- Whether a native timer is actually armed for this task: its `UUID_MAP`
entry names a native id present in the host's armed table.  (This can differ
from `hasTimer`: a fired one-shot auto-disarms but leaves its entry.) -/
def armedFor (w : World) (t : Nat) : Bool :=
  match (getState w t).uuid with
  | some n => w.armedNative.contains n
  | none => false

/-- The constructor: records the `repeat` flag and registers the new instance
in `TIMERS` (`Timer.addTimer`).  Returns the new instance's id. -/
def construct (w : World) (rep : Bool) : World × Nat :=
  let t := w.nextTask
  (setState { w with nextTask := t + 1, timers := w.timers ++ [t] } t
    (TimerState.initial rep), t)

/-- `private callPromiseResolveFunction`: if a resolve function is stored,
call it (the promise id joins `resolved`) and delete the map entry. -/
def callPromiseResolveFunction (w : World) (t : Nat) : World :=
  match (getState w t).pending with
  | some p =>
      setState { w with resolved := p :: w.resolved } t
        { getState w t with pending := none }
  | none => w

/-- `private startInterval`: `UUID_MAP.set(this, setInterval(...))`.  The host
allocates a fresh armed native id. -/
def startInterval (w : World) (t : Nat) : World :=
  let n := w.nextUuid
  setState { w with nextUuid := n + 1, armedNative := n :: w.armedNative } t
    { getState w t with uuid := some n }

/-- `private startTimeout`: `UUID_MAP.set(this, setTimeout(...))`.  The host
allocates a fresh armed native id; the one-shot firing semantics is
`fireTimeout`. -/
def startTimeout (w : World) (t : Nat) : World :=
  let n := w.nextUuid
  setState { w with nextUuid := n + 1, armedNative := n :: w.armedNative } t
    { getState w t with uuid := some n }

/-- The single error kind: the `TypeError` thrown by `stop` /
`stopInterval` / `stopTimeout`. -/
inductive TimerErr where
  | invalidState
deriving DecidableEq

/-- `private stopInterval`: guard on `hasTimer`, `clearInterval(uuid)`,
delete the `UUID_MAP` entry, then call the stored resolve function. -/
def stopInterval (w : World) (t : Nat) : World × Option TimerErr :=
  match (getState w t).uuid with
  | none => (w, some .invalidState)
  | some n =>
      let w1 := setState { w with armedNative := w.armedNative.filter (fun m => m != n) } t
        { getState w t with uuid := none }
      (callPromiseResolveFunction w1 t, none)

/-- `private stopTimeout`: guard on `hasTimer`, `clearTimeout(uuid)`, delete
the `UUID_MAP` entry.  The pending completion is not touched. -/
def stopTimeout (w : World) (t : Nat) : World × Option TimerErr :=
  match (getState w t).uuid with
  | none => (w, some .invalidState)
  | some n =>
      (setState { w with armedNative := w.armedNative.filter (fun m => m != n) } t
        { getState w t with uuid := none }, none)

/-- `public stop`: throw if `!hasTimer`; otherwise set `isRunning = false`
and dispatch to `stopInterval` or `stopTimeout` by the `repeat` flag. -/
def stop (w : World) (t : Nat) : World × Option TimerErr :=
  if hasTimer w t then
    let w1 := setState w t { getState w t with isRunning := false }
    if (getState w1 t).repeats then stopInterval w1 t else stopTimeout w1 t
  else (w, some .invalidState)

/-- `public async run`: internal stop if a timed task is already associated,
set `isRunning = true`, create the returned promise (a fresh id), arm the
native timer, then either store the new resolve function (when none is
cached) or call it immediately.  Returns the id of the returned promise. -/
def run (w : World) (t : Nat) : World × Nat :=
  let w1 := if hasTimer w t then (stop w t).1 else w
  let w2 := setState w1 t { getState w1 t with isRunning := true }
  let p := w2.nextPromise
  let w3 := { w2 with nextPromise := p + 1 }
  let w4 := if (getState w3 t).repeats then startInterval w3 t else startTimeout w3 t
  let w5 :=
    if (getState w4 t).pending = none then
      setState w4 t { getState w4 t with pending := some p }
    else { w4 with resolved := p :: w4.resolved }
  (w5, p)

/-- `private static stopTimer`: stop the given timer only if it is running. -/
def stopTimer (w : World) (t : Nat) : World × Option TimerErr :=
  if (getState w t).isRunning then stop w t else (w, none)

/-- `public static runTimer`: run the given timer only if it is not running
(the returned promise is discarded). -/
def runTimer (w : World) (t : Nat) : World :=
  if (getState w t).isRunning then w else (run w t).1

/-- `private static clearTimer` (= `public clear`): `stopTimer`, delete from
`TIMERS`, delete the `UUID_MAP` entry.  The pending-completion entry is not
touched. -/
def clearTimer (w : World) (t : Nat) : World × Option TimerErr :=
  match stopTimer w t with
  | (w1, some e) => (w1, some e)
  | (w1, none) =>
      let w2 := { w1 with timers := w1.timers.filter (fun s => s != t) }
      (setState w2 t { getState w2 t with uuid := none }, none)

/-- `TIMERS.forEach(timer => Timer.stopTimer(timer))`, over a snapshot of the
registry; a thrown error aborts the iteration and propagates. -/
def stopTimersGo (w : World) : List Nat → World × Option TimerErr
  | [] => (w, none)
  | t :: ts =>
      match stopTimer w t with
      | (w1, none) => stopTimersGo w1 ts
      | (w1, some e) => (w1, some e)

/-- `public static stopTimers`. -/
def stopTimers (w : World) : World × Option TimerErr :=
  stopTimersGo w w.timers

/-- `TIMERS.forEach(timer => Timer.runTimer(timer))`. -/
def runTimersGo (w : World) : List Nat → World
  | [] => w
  | t :: ts => runTimersGo (runTimer w t) ts

/-- `public static runTimers`. -/
def runTimers (w : World) : World :=
  runTimersGo w w.timers

/-- `TIMERS.forEach(timer => Timer.clearTimer(timer))`. -/
def clearTimersGo (w : World) : List Nat → World × Option TimerErr
  | [] => (w, none)
  | t :: ts =>
      match clearTimer w t with
      | (w1, none) => clearTimersGo w1 ts
      | (w1, some e) => (w1, some e)

/-- `public static clearTimers`. -/
def clearTimers (w : World) : World × Option TimerErr :=
  clearTimersGo w w.timers

/-- Natural firing of the armed native one-shot created by `startTimeout`:
the host auto-disarms it, the wrapped closure invokes `this.callback()` and
then `this.callPromiseResolveFunction()`.  Neither `isRunning` nor the
`UUID_MAP` entry is touched. -/
def fireTimeout (w : World) (t : Nat) : World :=
  match (getState w t).uuid with
  | some n =>
      let w1 := { w with armedNative := w.armedNative.filter (fun m => m != n) }
      let w2 := setState w1 t { getState w1 t with count := (getState w1 t).count + 1 }
      callPromiseResolveFunction w2 t
  | none => w

/-- The one-shot firing event is enabled: the task is non-repeating and its
native timer is armed. -/
def canFireTimeout (w : World) (t : Nat) : Bool :=
  !(getState w t).repeats && armedFor w t

/-- One tick of the armed native interval created by `startInterval`: the
wrapped closure invokes `this.callback()` only; the interval stays armed. -/
def fireInterval (w : World) (t : Nat) : World :=
  setState w t { getState w t with count := (getState w t).count + 1 }

/-- The interval tick event is enabled: the task is repeating and its native
timer is armed. -/
def canFireInterval (w : World) (t : Nat) : Bool :=
  (getState w t).repeats && armedFor w t

end Timer

/-- The operations that can happen to the world under the behaviour the spec
defines: constructing a timer, the three instance methods on a registered
(not-yet-cleared) instance, the three static batch methods, and the natural
firing events of armed native timers. -/
inductive Op where
  | newTimer (rep : Bool)
  | runOn (t : Nat)
  | stopOn (t : Nat)
  | clearOn (t : Nat)
  | runAll
  | stopAll
  | clearAll
  | fireT (t : Nat)
  | fireI (t : Nat)

/-- Apply one operation (instance methods apply to registered instances;
firing events apply when enabled; otherwise the world is unchanged). -/
def applyOp (w : World) : Op → World
  | .newTimer rep => (Timer.construct w rep).1
  | .runOn t => if t ∈ w.timers then (Timer.run w t).1 else w
  | .stopOn t => if t ∈ w.timers then (Timer.stop w t).1 else w
  | .clearOn t => if t ∈ w.timers then (Timer.clearTimer w t).1 else w
  | .runAll => Timer.runTimers w
  | .stopAll => (Timer.stopTimers w).1
  | .clearAll => (Timer.clearTimers w).1
  | .fireT t => if Timer.canFireTimeout w t then Timer.fireTimeout w t else w
  | .fireI t => if Timer.canFireInterval w t then Timer.fireInterval w t else w

/-- Apply a sequence of operations in order. -/
def applyOps (w : World) : List Op → World
  | [] => w
  | o :: os => applyOps (applyOp w o) os

/-- A world is reachable when some operation sequence produces it from the
initial world. -/
def Reachable (w : World) : Prop :=
  ∃ ops : List Op, applyOps World.initial ops = w

/-- In every reachable world, a timer's public `isRunning` flag agrees with
the presence of its `UUID_MAP` entry. -/
def Inv (w : World) : Prop :=
  ∀ t : Nat, (getState w t).isRunning = ((getState w t).uuid).isSome

/-- The three static batch methods, as standalone operations. -/
inductive BatchOp where
  | runAll
  | stopAll
  | clearAll

/-- Apply one batch method. -/
def applyBatch (w : World) : BatchOp → World
  | .runAll => Timer.runTimers w
  | .stopAll => (Timer.stopTimers w).1
  | .clearAll => (Timer.clearTimers w).1

/-- Apply a sequence of batch methods. -/
def applyBatches (w : World) : List BatchOp → World
  | [] => w
  | b :: bs => applyBatches (applyBatch w b) bs

/-! Concrete scenario worlds used by the claim theorems and witnesses. -/

/-- One idle one-shot timer (id 0), freshly constructed. -/
def wOneShot : World := (Timer.construct World.initial false).1

/-- One idle repeating timer (id 0), freshly constructed. -/
def wRepeat : World := (Timer.construct World.initial true).1

/-- The one-shot timer after `run()`: armed, promise 0 pending. -/
def wArmed : World := (Timer.run wOneShot 0).1

/-- The armed one-shot after its native timer fired naturally. -/
def wStale : World := Timer.fireTimeout wArmed 0

/-- The armed one-shot after `stop()` before firing: idle, promise 0 still
pending. -/
def wStopped : World := (Timer.stop wArmed 0).1

/-- The repeating timer after `run()`: armed interval, promise 0 pending. -/
def wRepeatArmed : World := (Timer.run wRepeat 0).1


/-- The situation of a deregistered task `t` whose unresolved completion is
promise `p`: `t` is out of the registry with no `UUID_MAP` entry (so no
firing event and no batch operation can reach it), `p` is stored for `t` and
unresolved, every future promise id is larger than `p`, every future task id
is different from `t`, and no other task's stored resolve function is for
`p`. -/
def Frozen (w : World) (t p : Nat) : Prop :=
  t ∉ w.timers ∧
  (getState w t).uuid = none ∧
  (getState w t).pending = some p ∧
  p ∉ w.resolved ∧
  p < w.nextPromise ∧
  t < w.nextTask ∧
  ∀ s : Nat, s ≠ t → (getState w s).pending ≠ some p

end TimerSpec

/-! ### Basic lemmas about state reads and writes -/

namespace TimerSpec

@[simp]
theorem stateOf_cons_self (t : Nat) (s : TimerState) (l : List (Nat × TimerState)) :
    stateOf ((t, s) :: l) t = s := by
  simp [stateOf, List.lookup]

@[simp]
theorem stateOf_cons_ne (u t : Nat) (s : TimerState) (l : List (Nat × TimerState))
    (h : u ≠ t) : stateOf ((t, s) :: l) u = stateOf l u := by
  simp [stateOf, List.lookup, beq_false_of_ne h]

@[simp]
theorem getState_setState_self (w : World) (t : Nat) (s : TimerState) :
    getState (setState w t s) t = s := by
  simp [getState, setState]

@[simp]
theorem getState_setState_ne (w : World) (u : Nat) (s : TimerState) {t : Nat} (h : t ≠ u) :
    getState (setState w u s) t = getState w t := by
  simp [getState, setState, stateOf_cons_ne _ _ _ _ h]

@[simp] theorem setState_timers (w : World) (t : Nat) (s : TimerState) :
    (setState w t s).timers = w.timers := rfl

@[simp] theorem setState_armedNative (w : World) (t : Nat) (s : TimerState) :
    (setState w t s).armedNative = w.armedNative := rfl

@[simp] theorem setState_resolved (w : World) (t : Nat) (s : TimerState) :
    (setState w t s).resolved = w.resolved := rfl

@[simp] theorem setState_nextTask (w : World) (t : Nat) (s : TimerState) :
    (setState w t s).nextTask = w.nextTask := rfl

@[simp] theorem setState_nextUuid (w : World) (t : Nat) (s : TimerState) :
    (setState w t s).nextUuid = w.nextUuid := rfl

@[simp] theorem setState_nextPromise (w : World) (t : Nat) (s : TimerState) :
    (setState w t s).nextPromise = w.nextPromise := rfl

/-! ### Characterization of `stop` -/

namespace Timer

/-- `stop` on a timer with no `UUID_MAP` entry: the error is thrown by the
very first statement, before any mutation, so the world is unchanged. -/
theorem stop_err (w : World) (t : Nat) (h : (getState w t).uuid = none) :
    stop w t = (w, some .invalidState) := by
  simp [stop, hasTimer, h]

/-- Full characterization of a successful `stop` on a timer whose `UUID_MAP`
entry is `n`: no error; the timer is marked not running and its entry
deleted; the native timer `n` is disarmed; for a repeating timer the stored
resolve function (if any) is called and cleared, for a one-shot it is kept;
nothing else changes. -/
theorem stop_spec (w : World) (t n : Nat) (h : (getState w t).uuid = some n) :
    (stop w t).2 = none ∧
    getState (stop w t).1 t =
      { getState w t with
          isRunning := false,
          uuid := none,
          pending := if (getState w t).repeats then none else (getState w t).pending } ∧
    (stop w t).1.resolved =
      (if (getState w t).repeats then
        (match (getState w t).pending with
          | some p => p :: w.resolved
          | none => w.resolved)
      else w.resolved) ∧
    (stop w t).1.armedNative = w.armedNative.filter (fun m => m != n) ∧
    (stop w t).1.timers = w.timers ∧
    (stop w t).1.nextTask = w.nextTask ∧
    (stop w t).1.nextUuid = w.nextUuid ∧
    (stop w t).1.nextPromise = w.nextPromise ∧
    (∀ s, s ≠ t → getState (stop w t).1 s = getState w s) := by
  rcases hs : getState w t with ⟨rep, ir, uu, pe, ct⟩
  rw [hs] at h
  subst h
  have hh : hasTimer w t = true := by simp [hasTimer, hs]
  simp only [getState] at hs
  cases rep with
  | false =>
      cases pe with
      | none =>
          simp [stop, hasTimer, hh, hs, stopTimeout, callPromiseResolveFunction, getState, setState]
          intro s hst
          simp [getState, setState, stateOf_cons_ne _ _ _ _ hst]
      | some p =>
          simp [stop, hasTimer, hh, hs, stopTimeout, callPromiseResolveFunction, getState, setState]
          intro s hst
          simp [getState, setState, stateOf_cons_ne _ _ _ _ hst]
  | true =>
      cases pe with
      | none =>
          simp [stop, hasTimer, hh, hs, stopInterval, callPromiseResolveFunction, getState, setState]
          intro s hst
          simp [getState, setState, stateOf_cons_ne _ _ _ _ hst]
      | some p =>
          simp [stop, hasTimer, hh, hs, stopInterval, callPromiseResolveFunction, getState, setState]
          intro s hst
          simp [getState, setState, stateOf_cons_ne _ _ _ _ hst]

end Timer

end TimerSpec

/-! ### Characterizations of the constructor, the firing events and `run` -/

namespace TimerSpec

namespace Timer

/-- The constructor registers a fresh id in an idle initial state and touches
nothing else. -/
theorem construct_spec (w : World) (rep : Bool) :
    (construct w rep).2 = w.nextTask ∧
    (construct w rep).1.timers = w.timers ++ [w.nextTask] ∧
    (construct w rep).1.nextTask = w.nextTask + 1 ∧
    (construct w rep).1.armedNative = w.armedNative ∧
    (construct w rep).1.resolved = w.resolved ∧
    (construct w rep).1.nextUuid = w.nextUuid ∧
    (construct w rep).1.nextPromise = w.nextPromise ∧
    getState (construct w rep).1 w.nextTask = TimerState.initial rep ∧
    (∀ s, s ≠ w.nextTask → getState (construct w rep).1 s = getState w s) := by
  refine ⟨rfl, rfl, rfl, rfl, rfl, rfl, rfl, ?_, ?_⟩
  · simp [construct, getState, setState]
  · intro s hs
    simp [construct, getState, setState, stateOf_cons_ne _ _ _ _ hs]

/-- Natural firing of the one-shot whose native id is `n`: the callback runs
(the invocation count grows), the stored resolve function (if any) is called
and cleared, and the host disarms `n`; `isRunning` and the `UUID_MAP` entry
are left as they are. -/
theorem fireTimeout_spec (w : World) (t n : Nat) (h : (getState w t).uuid = some n) :
    getState (fireTimeout w t) t =
      { getState w t with
          count := (getState w t).count + 1,
          pending := none } ∧
    (fireTimeout w t).resolved =
      (match (getState w t).pending with
        | some p => p :: w.resolved
        | none => w.resolved) ∧
    (fireTimeout w t).armedNative = w.armedNative.filter (fun m => m != n) ∧
    (fireTimeout w t).timers = w.timers ∧
    (fireTimeout w t).nextTask = w.nextTask ∧
    (fireTimeout w t).nextUuid = w.nextUuid ∧
    (fireTimeout w t).nextPromise = w.nextPromise ∧
    (∀ s, s ≠ t → getState (fireTimeout w t) s = getState w s) := by
  rcases hs : getState w t with ⟨rep, ir, uu, pe, ct⟩
  rw [hs] at h
  subst h
  simp only [getState] at hs
  cases pe with
  | none =>
      simp [fireTimeout, hs, callPromiseResolveFunction, getState, setState]
      intro s hst
      simp [stateOf_cons_ne _ _ _ _ hst]
  | some p =>
      simp [fireTimeout, hs, callPromiseResolveFunction, getState, setState]
      intro s hst
      simp [stateOf_cons_ne _ _ _ _ hst]

/-- One interval tick: only the invocation count of the task changes. -/
theorem fireInterval_spec (w : World) (t : Nat) :
    getState (fireInterval w t) t =
      { getState w t with count := (getState w t).count + 1 } ∧
    (fireInterval w t).resolved = w.resolved ∧
    (fireInterval w t).armedNative = w.armedNative ∧
    (fireInterval w t).timers = w.timers ∧
    (fireInterval w t).nextTask = w.nextTask ∧
    (fireInterval w t).nextUuid = w.nextUuid ∧
    (fireInterval w t).nextPromise = w.nextPromise ∧
    (∀ s, s ≠ t → getState (fireInterval w t) s = getState w s) := by
  refine ⟨by simp [fireInterval], rfl, rfl, rfl, rfl, rfl, rfl, ?_⟩
  intro s hst
  simp [fireInterval, getState, setState, stateOf_cons_ne _ _ _ _ hst]

/-- `run` on a timer with no `UUID_MAP` entry and no stored resolve function
(first start, or resumed after the pending completion resolved): marks it
running, arms a fresh native timer and stores the fresh promise's resolve
function; no promise resolves. -/
theorem run_spec_fresh (w : World) (t : Nat)
    (hu : (getState w t).uuid = none) (hp : (getState w t).pending = none) :
    (run w t).2 = w.nextPromise ∧
    getState (run w t).1 t =
      { getState w t with
          isRunning := true,
          uuid := some w.nextUuid,
          pending := some w.nextPromise } ∧
    (run w t).1.armedNative = w.nextUuid :: w.armedNative ∧
    (run w t).1.resolved = w.resolved ∧
    (run w t).1.timers = w.timers ∧
    (run w t).1.nextTask = w.nextTask ∧
    (run w t).1.nextUuid = w.nextUuid + 1 ∧
    (run w t).1.nextPromise = w.nextPromise + 1 ∧
    (∀ s, s ≠ t → getState (run w t).1 s = getState w s) := by
  rcases hs : getState w t with ⟨rep, ir, uu, pe, ct⟩
  rw [hs] at hu hp
  subst hu
  subst hp
  have hh : hasTimer w t = false := by simp [hasTimer, hs]
  simp only [getState] at hs
  cases rep with
  | false =>
      simp [run, hh, hs, startTimeout, getState, setState]
      intro s hst
      simp [stateOf_cons_ne _ _ _ _ hst]
  | true =>
      simp [run, hh, hs, startInterval, getState, setState]
      intro s hst
      simp [stateOf_cons_ne _ _ _ _ hst]

/-- `run` on a timer that has a `UUID_MAP` entry `n` and a stored resolve
function for promise `p0` (the resume-while-armed case): the old native timer
is first disarmed by the internal `stop` and a fresh one armed.  For a
one-shot, the internal stop leaves the stored resolve function in place, so
the fresh promise is resolved immediately instead; for a repeating timer the
internal stop resolves and clears `p0`, so the fresh promise's resolve
function is stored. -/
theorem run_spec_armed (w : World) (t n p0 : Nat)
    (hu : (getState w t).uuid = some n) (hp : (getState w t).pending = some p0) :
    (run w t).2 = w.nextPromise ∧
    getState (run w t).1 t =
      { getState w t with
          isRunning := true,
          uuid := some w.nextUuid,
          pending := some (if (getState w t).repeats then w.nextPromise else p0) } ∧
    (run w t).1.armedNative = w.nextUuid :: w.armedNative.filter (fun m => m != n) ∧
    (run w t).1.resolved =
      (if (getState w t).repeats then p0 else w.nextPromise) :: w.resolved ∧
    (run w t).1.timers = w.timers ∧
    (run w t).1.nextTask = w.nextTask ∧
    (run w t).1.nextUuid = w.nextUuid + 1 ∧
    (run w t).1.nextPromise = w.nextPromise + 1 ∧
    (∀ s, s ≠ t → getState (run w t).1 s = getState w s) := by
  rcases hs : getState w t with ⟨rep, ir, uu, pe, ct⟩
  rw [hs] at hu hp
  subst hu
  subst hp
  have hh : hasTimer w t = true := by simp [hasTimer, hs]
  simp only [getState] at hs
  cases rep with
  | false =>
      simp [run, stop, hasTimer, hh, hs, stopTimeout, callPromiseResolveFunction,
        startTimeout, getState, setState]
      intro s hst
      simp [stateOf_cons_ne _ _ _ _ hst]
  | true =>
      simp [run, stop, hasTimer, hh, hs, stopInterval, callPromiseResolveFunction,
        startInterval, getState, setState]
      intro s hst
      simp [stateOf_cons_ne _ _ _ _ hst]

end Timer

end TimerSpec

/-! ### The remaining `run` cases and derived projection/frame lemmas -/

namespace TimerSpec

namespace Timer

/-- `run` on a timer with no `UUID_MAP` entry but a stored resolve function
for promise `p0` (resume after `stop` of a one-shot): no internal stop; a
fresh native timer is armed; since a resolve function is already cached, the
fresh promise is resolved immediately and `p0` stays stored. -/
theorem run_spec_idle_pending (w : World) (t p0 : Nat)
    (hu : (getState w t).uuid = none) (hp : (getState w t).pending = some p0) :
    (run w t).2 = w.nextPromise ∧
    getState (run w t).1 t =
      { getState w t with
          isRunning := true,
          uuid := some w.nextUuid } ∧
    (run w t).1.armedNative = w.nextUuid :: w.armedNative ∧
    (run w t).1.resolved = w.nextPromise :: w.resolved ∧
    (run w t).1.timers = w.timers ∧
    (run w t).1.nextTask = w.nextTask ∧
    (run w t).1.nextUuid = w.nextUuid + 1 ∧
    (run w t).1.nextPromise = w.nextPromise + 1 ∧
    (∀ s, s ≠ t → getState (run w t).1 s = getState w s) := by
  rcases hs : getState w t with ⟨rep, ir, uu, pe, ct⟩
  rw [hs] at hu hp
  subst hu
  subst hp
  have hh : hasTimer w t = false := by simp [hasTimer, hs]
  simp only [getState] at hs
  cases rep with
  | false =>
      simp [run, hh, hs, startTimeout, getState, setState]
      intro s hst
      simp [stateOf_cons_ne _ _ _ _ hst]
  | true =>
      simp [run, hh, hs, startInterval, getState, setState]
      intro s hst
      simp [stateOf_cons_ne _ _ _ _ hst]

/-- `run` on a timer with a `UUID_MAP` entry `n` but no stored resolve
function (the stale fired one-shot case): the internal stop disarms `n` and
resolves nothing, a fresh native timer is armed and the fresh promise's
resolve function is stored. -/
theorem run_spec_armed_nopending (w : World) (t n : Nat)
    (hu : (getState w t).uuid = some n) (hp : (getState w t).pending = none) :
    (run w t).2 = w.nextPromise ∧
    getState (run w t).1 t =
      { getState w t with
          isRunning := true,
          uuid := some w.nextUuid,
          pending := some w.nextPromise } ∧
    (run w t).1.armedNative = w.nextUuid :: w.armedNative.filter (fun m => m != n) ∧
    (run w t).1.resolved = w.resolved ∧
    (run w t).1.timers = w.timers ∧
    (run w t).1.nextTask = w.nextTask ∧
    (run w t).1.nextUuid = w.nextUuid + 1 ∧
    (run w t).1.nextPromise = w.nextPromise + 1 ∧
    (∀ s, s ≠ t → getState (run w t).1 s = getState w s) := by
  rcases hs : getState w t with ⟨rep, ir, uu, pe, ct⟩
  rw [hs] at hu hp
  subst hu
  subst hp
  have hh : hasTimer w t = true := by simp [hasTimer, hs]
  simp only [getState] at hs
  cases rep with
  | false =>
      simp [run, stop, hasTimer, hh, hs, stopTimeout, callPromiseResolveFunction,
        startTimeout, getState, setState]
      intro s hst
      simp [stateOf_cons_ne _ _ _ _ hst]
  | true =>
      simp [run, stop, hasTimer, hh, hs, stopInterval, callPromiseResolveFunction,
        startInterval, getState, setState]
      intro s hst
      simp [stateOf_cons_ne _ _ _ _ hst]

/-- `run` never changes another timer's state. -/
theorem run_frame (w : World) (t : Nat) {s : Nat} (h : s ≠ t) :
    getState (run w t).1 s = getState w s := by
  rcases hu : (getState w t).uuid with _ | n
  · rcases hp : (getState w t).pending with _ | p0
    · obtain ⟨-, -, -, -, -, -, -, -, hfr⟩ := run_spec_fresh w t hu hp
      exact hfr s h
    · obtain ⟨-, -, -, -, -, -, -, -, hfr⟩ := run_spec_idle_pending w t p0 hu hp
      exact hfr s h
  · rcases hp : (getState w t).pending with _ | p0
    · obtain ⟨-, -, -, -, -, -, -, -, hfr⟩ := run_spec_armed_nopending w t n hu hp
      exact hfr s h
    · obtain ⟨-, -, -, -, -, -, -, -, hfr⟩ := run_spec_armed w t n p0 hu hp
      exact hfr s h

/-- After `run`, the timer is marked running with the fresh handle. -/
theorem run_self (w : World) (t : Nat) :
    (getState (run w t).1 t).isRunning = true ∧
    (getState (run w t).1 t).uuid = some w.nextUuid := by
  rcases hu : (getState w t).uuid with _ | n
  · rcases hp : (getState w t).pending with _ | p0
    · obtain ⟨-, hself, -⟩ := run_spec_fresh w t hu hp
      rw [hself]
      exact ⟨rfl, rfl⟩
    · obtain ⟨-, hself, -⟩ := run_spec_idle_pending w t p0 hu hp
      rw [hself]
      exact ⟨rfl, rfl⟩
  · rcases hp : (getState w t).pending with _ | p0
    · obtain ⟨-, hself, -⟩ := run_spec_armed_nopending w t n hu hp
      rw [hself]
      exact ⟨rfl, rfl⟩
    · obtain ⟨-, hself, -⟩ := run_spec_armed w t n p0 hu hp
      rw [hself]
      exact ⟨rfl, rfl⟩

/-- After `run`, the stored resolve function is either the fresh promise's or
the one that was already stored. -/
theorem run_pending_self (w : World) (t : Nat) :
    (getState (run w t).1 t).pending = some w.nextPromise ∨
    (getState (run w t).1 t).pending = (getState w t).pending := by
  rcases hu : (getState w t).uuid with _ | n
  · rcases hp : (getState w t).pending with _ | p0
    · obtain ⟨-, hself, -⟩ := run_spec_fresh w t hu hp
      rw [hself]
      exact Or.inl rfl
    · obtain ⟨-, hself, -⟩ := run_spec_idle_pending w t p0 hu hp
      rw [hself]
      exact Or.inr hp
  · rcases hp : (getState w t).pending with _ | p0
    · obtain ⟨-, hself, -⟩ := run_spec_armed_nopending w t n hu hp
      rw [hself]
      exact Or.inl rfl
    · obtain ⟨-, hself, -⟩ := run_spec_armed w t n p0 hu hp
      rw [hself]
      cases hr : (getState w t).repeats
      · simp [hr, hp]
      · simp [hr]

/-- Promise ids resolved by `run` beyond those already resolved: the old
stored one, or the fresh one. -/
theorem run_resolved_sub (w : World) (t : Nat) {x : Nat}
    (hx : x ∈ (run w t).1.resolved) :
    x ∈ w.resolved ∨ (getState w t).pending = some x ∨ x = w.nextPromise := by
  rcases hu : (getState w t).uuid with _ | n
  · rcases hp : (getState w t).pending with _ | p0
    · obtain ⟨-, -, -, hres, -⟩ := run_spec_fresh w t hu hp
      rw [hres] at hx
      exact Or.inl hx
    · obtain ⟨-, -, -, hres, -⟩ := run_spec_idle_pending w t p0 hu hp
      rw [hres] at hx
      rcases List.mem_cons.mp hx with h | h
      · exact Or.inr (Or.inr h)
      · exact Or.inl h
  · rcases hp : (getState w t).pending with _ | p0
    · obtain ⟨-, -, -, hres, -⟩ := run_spec_armed_nopending w t n hu hp
      rw [hres] at hx
      exact Or.inl hx
    · obtain ⟨-, -, -, hres, -⟩ := run_spec_armed w t n p0 hu hp
      rw [hres] at hx
      rcases List.mem_cons.mp hx with h | h
      · cases hr : (getState w t).repeats
        · rw [hr] at h
          simp at h
          exact Or.inr (Or.inr h)
        · rw [hr] at h
          simp at h
          rw [h, ← hp]
          exact Or.inr (Or.inl rfl)
      · exact Or.inl h

/-- `run` leaves the registry and the task/promise counters unchanged apart
from allocating one promise id. -/
theorem run_proj (w : World) (t : Nat) :
    (run w t).1.timers = w.timers ∧
    (run w t).1.nextTask = w.nextTask ∧
    (run w t).1.nextPromise = w.nextPromise + 1 := by
  rcases hu : (getState w t).uuid with _ | n
  · rcases hp : (getState w t).pending with _ | p0
    · obtain ⟨-, -, -, -, h1, h2, -, h3, -⟩ := run_spec_fresh w t hu hp
      exact ⟨h1, h2, h3⟩
    · obtain ⟨-, -, -, -, h1, h2, -, h3, -⟩ := run_spec_idle_pending w t p0 hu hp
      exact ⟨h1, h2, h3⟩
  · rcases hp : (getState w t).pending with _ | p0
    · obtain ⟨-, -, -, -, h1, h2, -, h3, -⟩ := run_spec_armed_nopending w t n hu hp
      exact ⟨h1, h2, h3⟩
    · obtain ⟨-, -, -, -, h1, h2, -, h3, -⟩ := run_spec_armed w t n p0 hu hp
      exact ⟨h1, h2, h3⟩

end Timer

end TimerSpec

/-! ### Derived lemmas for `stop`, `stopTimer`, `runTimer`, `clearTimer` -/

namespace TimerSpec

namespace Timer

/-- `stop` never changes another timer's state. -/
theorem stop_frame (w : World) (t : Nat) {s : Nat} (h : s ≠ t) :
    getState (stop w t).1 s = getState w s := by
  rcases hu : (getState w t).uuid with _ | n
  · rw [stop_err w t hu]
  · obtain ⟨-, -, -, -, -, -, -, -, hfr⟩ := stop_spec w t n hu
    exact hfr s h

/-- `stop` leaves the registry and all counters unchanged. -/
theorem stop_proj (w : World) (t : Nat) :
    (stop w t).1.timers = w.timers ∧
    (stop w t).1.nextTask = w.nextTask ∧
    (stop w t).1.nextUuid = w.nextUuid ∧
    (stop w t).1.nextPromise = w.nextPromise := by
  rcases hu : (getState w t).uuid with _ | n
  · rw [stop_err w t hu]
    exact ⟨rfl, rfl, rfl, rfl⟩
  · obtain ⟨-, -, -, -, h1, h2, h3, h4, -⟩ := stop_spec w t n hu
    exact ⟨h1, h2, h3, h4⟩

/-- Promise ids resolved by `stop` beyond those already resolved: only the
stopped timer's stored one. -/
theorem stop_resolved_sub (w : World) (t : Nat) {x : Nat}
    (hx : x ∈ (stop w t).1.resolved) :
    x ∈ w.resolved ∨ (getState w t).pending = some x := by
  rcases hu : (getState w t).uuid with _ | n
  · rw [stop_err w t hu] at hx
    exact Or.inl hx
  · obtain ⟨-, -, hres, -⟩ := stop_spec w t n hu
    rw [hres] at hx
    cases hr : (getState w t).repeats
    · rw [hr] at hx
      exact Or.inl hx
    · rw [hr] at hx
      rcases hp : (getState w t).pending with _ | p0
      · rw [hp] at hx
        exact Or.inl hx
      · rw [hp] at hx
        rcases List.mem_cons.mp hx with h | h
        · subst h
          exact Or.inr rfl
        · exact Or.inl h

/-- After `stop`, the stored resolve function is either cleared or the one
that was already stored. -/
theorem stop_pending_self (w : World) (t : Nat) :
    (getState (stop w t).1 t).pending = none ∨
    (getState (stop w t).1 t).pending = (getState w t).pending := by
  rcases hu : (getState w t).uuid with _ | n
  · rw [stop_err w t hu]
    exact Or.inr rfl
  · obtain ⟨-, hself, -⟩ := stop_spec w t n hu
    rw [hself]
    cases hr : (getState w t).repeats
    · simp [hr]
    · simp [hr]

/-- `stopTimer` on a non-running timer does nothing. -/
theorem stopTimer_not_running (w : World) (t : Nat)
    (h : (getState w t).isRunning = false) : stopTimer w t = (w, none) := by
  simp [stopTimer, h]

/-- `stopTimer` on a running timer is `stop`. -/
theorem stopTimer_running (w : World) (t : Nat)
    (h : (getState w t).isRunning = true) : stopTimer w t = stop w t := by
  simp [stopTimer, h]

/-- `stopTimer` never changes another timer's state. -/
theorem stopTimer_frame (w : World) (t : Nat) {s : Nat} (h : s ≠ t) :
    getState (stopTimer w t).1 s = getState w s := by
  cases hr : (getState w t).isRunning
  · rw [stopTimer_not_running w t hr]
  · rw [stopTimer_running w t hr]
    exact stop_frame w t h

/-- `stopTimer` leaves the registry and all counters unchanged. -/
theorem stopTimer_proj (w : World) (t : Nat) :
    (stopTimer w t).1.timers = w.timers ∧
    (stopTimer w t).1.nextTask = w.nextTask ∧
    (stopTimer w t).1.nextUuid = w.nextUuid ∧
    (stopTimer w t).1.nextPromise = w.nextPromise := by
  cases hr : (getState w t).isRunning
  · rw [stopTimer_not_running w t hr]
    exact ⟨rfl, rfl, rfl, rfl⟩
  · rw [stopTimer_running w t hr]
    exact stop_proj w t

/-- Promise ids resolved by `stopTimer`. -/
theorem stopTimer_resolved_sub (w : World) (t : Nat) {x : Nat}
    (hx : x ∈ (stopTimer w t).1.resolved) :
    x ∈ w.resolved ∨ (getState w t).pending = some x := by
  cases hr : (getState w t).isRunning
  · rw [stopTimer_not_running w t hr] at hx
    exact Or.inl hx
  · rw [stopTimer_running w t hr] at hx
    exact stop_resolved_sub w t hx

/-- After `stopTimer`, the stored resolve function is either cleared or
unchanged. -/
theorem stopTimer_pending_self (w : World) (t : Nat) :
    (getState (stopTimer w t).1 t).pending = none ∨
    (getState (stopTimer w t).1 t).pending = (getState w t).pending := by
  cases hr : (getState w t).isRunning
  · rw [stopTimer_not_running w t hr]
    exact Or.inr rfl
  · rw [stopTimer_running w t hr]
    exact stop_pending_self w t

/-- Full characterization of `clearTimer` on a timer that is not in the
broken running-without-handle state: no error; the timer leaves the registry;
it ends not running with no `UUID_MAP` entry; its stored resolve function is
called and cleared only when it was a running repeating timer; nothing else
changes except the disarming. -/
theorem clearTimer_spec (w : World) (t : Nat)
    (hsafe : (getState w t).isRunning = true → ((getState w t).uuid).isSome = true) :
    (clearTimer w t).2 = none ∧
    (clearTimer w t).1.timers = w.timers.filter (fun s => s != t) ∧
    getState (clearTimer w t).1 t =
      { getState w t with
          isRunning := false,
          uuid := none,
          pending := if (getState w t).isRunning && (getState w t).repeats then none
            else (getState w t).pending } ∧
    (clearTimer w t).1.resolved =
      (if (getState w t).isRunning && (getState w t).repeats then
        (match (getState w t).pending with
          | some p => p :: w.resolved
          | none => w.resolved)
      else w.resolved) ∧
    (clearTimer w t).1.nextTask = w.nextTask ∧
    (clearTimer w t).1.nextUuid = w.nextUuid ∧
    (clearTimer w t).1.nextPromise = w.nextPromise ∧
    (∀ s, s ≠ t → getState (clearTimer w t).1 s = getState w s) := by
  cases hr : (getState w t).isRunning
  · have hst : stopTimer w t = (w, none) := stopTimer_not_running w t hr
    rcases hself : getState w t with ⟨rep, ir, uu, pe, ct⟩
    rw [hself] at hr
    subst hr
    simp only [getState] at hself
    simp [clearTimer, hst, hself, getState, setState]
    intro s hs
    simp [stateOf_cons_ne _ _ _ _ hs]
  · obtain ⟨n, hn⟩ := Option.isSome_iff_exists.mp (hsafe hr)
    have hst : stopTimer w t = stop w t := stopTimer_running w t hr
    obtain ⟨e0, hself, hres, harm, htim, hnt, hnu, hnp, hfr⟩ := stop_spec w t n hn
    have hpair : stopTimer w t = ((stop w t).1, none) := by
      rw [hst, ← e0]
    constructor
    · simp [clearTimer, hpair]
    constructor
    · simp [clearTimer, hpair, htim]
    constructor
    · have h2 : getState (clearTimer w t).1 t =
          { getState (stop w t).1 t with uuid := none } := by
        simp [clearTimer, hpair, getState, setState]
      rw [h2, hself]
      cases hrep : (getState w t).repeats <;> simp [hr, hrep]
    constructor
    · simp [clearTimer, hpair, hres, hr]
    constructor
    · simp [clearTimer, hpair, hnt]
    constructor
    · simp [clearTimer, hpair, hnu]
    constructor
    · simp [clearTimer, hpair, hnp]
    · intro s hs
      have h1 : getState (clearTimer w t).1 s = getState (stop w t).1 s := by
        simp only [clearTimer, hpair]
        simp [getState, setState, stateOf_cons_ne _ _ _ _ hs]
      rw [h1]
      exact hfr s hs

/-- `runTimer` on a running timer does nothing. -/
theorem runTimer_running (w : World) (t : Nat)
    (h : (getState w t).isRunning = true) : runTimer w t = w := by
  simp [runTimer, h]

/-- `runTimer` on a non-running timer is `run`. -/
theorem runTimer_not_running (w : World) (t : Nat)
    (h : (getState w t).isRunning = false) : runTimer w t = (run w t).1 := by
  simp [runTimer, h]

/-- `fireTimeout` on a timer with no `UUID_MAP` entry does nothing. -/
theorem fireTimeout_id (w : World) (t : Nat)
    (h : (getState w t).uuid = none) : fireTimeout w t = w := by
  simp [fireTimeout, h]

end Timer

end TimerSpec

/-! ### The well-formedness invariant of reachable worlds -/

namespace TimerSpec

theorem Inv.initial : Inv World.initial := by
  intro t
  simp [getState, stateOf, World.initial, List.lookup, TimerState.initial]

theorem Inv.preserve_construct {w : World} (h : Inv w) (rep : Bool) :
    Inv (Timer.construct w rep).1 := by
  obtain ⟨-, -, -, -, -, -, -, hnew, hfr⟩ := Timer.construct_spec w rep
  intro t
  by_cases ht : t = w.nextTask
  · subst ht
    rw [hnew]
    rfl
  · rw [hfr t ht]
    exact h t

theorem Inv.preserve_run {w : World} (h : Inv w) (t : Nat) : Inv (Timer.run w t).1 := by
  intro s
  by_cases hst : s = t
  · subst hst
    obtain ⟨h1, h2⟩ := Timer.run_self w s
    rw [h1, h2]
    rfl
  · rw [Timer.run_frame w t hst]
    exact h s

theorem Inv.preserve_stop {w : World} (h : Inv w) (t : Nat) : Inv (Timer.stop w t).1 := by
  rcases hu : (getState w t).uuid with _ | n
  · rw [Timer.stop_err w t hu]
    exact h
  · obtain ⟨-, hself, -⟩ := Timer.stop_spec w t n hu
    intro s
    by_cases hst : s = t
    · subst hst
      rw [hself]
      rfl
    · rw [Timer.stop_frame w t hst]
      exact h s

theorem Inv.preserve_stopTimer {w : World} (h : Inv w) (t : Nat) :
    Inv (Timer.stopTimer w t).1 := by
  cases hr : (getState w t).isRunning
  · rw [Timer.stopTimer_not_running w t hr]
    exact h
  · rw [Timer.stopTimer_running w t hr]
    exact h.preserve_stop t

theorem Inv.preserve_runTimer {w : World} (h : Inv w) (t : Nat) :
    Inv (Timer.runTimer w t) := by
  cases hr : (getState w t).isRunning
  · rw [Timer.runTimer_not_running w t hr]
    exact h.preserve_run t
  · rw [Timer.runTimer_running w t hr]
    exact h

theorem Inv.preserve_clearTimer {w : World} (h : Inv w) (t : Nat) :
    Inv (Timer.clearTimer w t).1 := by
  have hsafe : (getState w t).isRunning = true → ((getState w t).uuid).isSome = true := by
    intro hr
    rw [← h t]
    exact hr
  obtain ⟨-, -, hself, -, -, -, -, hfr⟩ := Timer.clearTimer_spec w t hsafe
  intro s
  by_cases hst : s = t
  · subst hst
    rw [hself]
    rfl
  · rw [hfr s hst]
    exact h s

theorem Inv.preserve_fireTimeout {w : World} (h : Inv w) (t : Nat) :
    Inv (Timer.fireTimeout w t) := by
  rcases hu : (getState w t).uuid with _ | n
  · rw [Timer.fireTimeout_id w t hu]
    exact h
  · obtain ⟨hself, -, -, -, -, -, -, hfr⟩ := Timer.fireTimeout_spec w t n hu
    intro s
    by_cases hst : s = t
    · subst hst
      rw [hself]
      exact h s
    · rw [hfr s hst]
      exact h s

theorem Inv.preserve_fireInterval {w : World} (h : Inv w) (t : Nat) :
    Inv (Timer.fireInterval w t) := by
  obtain ⟨hself, -, -, -, -, -, -, hfr⟩ := Timer.fireInterval_spec w t
  intro s
  by_cases hst : s = t
  · subst hst
    rw [hself]
    exact h s
  · rw [hfr s hst]
    exact h s

theorem Inv.preserve_stopTimersGo {w : World} (h : Inv w) (L : List Nat) :
    Inv (Timer.stopTimersGo w L).1 := by
  induction L generalizing w with
  | nil => exact h
  | cons t ts ih =>
      rcases hst : Timer.stopTimer w t with ⟨w1, e⟩
      have hw1 : Inv w1 := by
        have := h.preserve_stopTimer t
        rw [hst] at this
        exact this
      cases e with
      | none => simpa [Timer.stopTimersGo, hst] using ih hw1
      | some e => simpa [Timer.stopTimersGo, hst] using hw1

theorem Inv.preserve_runTimersGo {w : World} (h : Inv w) (L : List Nat) :
    Inv (Timer.runTimersGo w L) := by
  induction L generalizing w with
  | nil => exact h
  | cons t ts ih => exact ih (h.preserve_runTimer t)

theorem Inv.preserve_clearTimersGo {w : World} (h : Inv w) (L : List Nat) :
    Inv (Timer.clearTimersGo w L).1 := by
  induction L generalizing w with
  | nil => exact h
  | cons t ts ih =>
      rcases hct : Timer.clearTimer w t with ⟨w1, e⟩
      have hw1 : Inv w1 := by
        have := h.preserve_clearTimer t
        rw [hct] at this
        exact this
      cases e with
      | none => simpa [Timer.clearTimersGo, hct] using ih hw1
      | some e => simpa [Timer.clearTimersGo, hct] using hw1

theorem Inv.preserve_applyOp {w : World} (h : Inv w) (o : Op) : Inv (applyOp w o) := by
  cases o with
  | newTimer rep => exact h.preserve_construct rep
  | runOn t =>
      show Inv (if t ∈ w.timers then (Timer.run w t).1 else w)
      split_ifs
      · exact h.preserve_run t
      · exact h
  | stopOn t =>
      show Inv (if t ∈ w.timers then (Timer.stop w t).1 else w)
      split_ifs
      · exact h.preserve_stop t
      · exact h
  | clearOn t =>
      show Inv (if t ∈ w.timers then (Timer.clearTimer w t).1 else w)
      split_ifs
      · exact h.preserve_clearTimer t
      · exact h
  | runAll => exact h.preserve_runTimersGo w.timers
  | stopAll => exact h.preserve_stopTimersGo w.timers
  | clearAll => exact h.preserve_clearTimersGo w.timers
  | fireT t =>
      show Inv (if Timer.canFireTimeout w t = true then Timer.fireTimeout w t else w)
      split_ifs
      · exact h.preserve_fireTimeout t
      · exact h
  | fireI t =>
      show Inv (if Timer.canFireInterval w t = true then Timer.fireInterval w t else w)
      split_ifs
      · exact h.preserve_fireInterval t
      · exact h

theorem Inv.preserve_applyOps {w : World} (h : Inv w) (ops : List Op) :
    Inv (applyOps w ops) := by
  induction ops generalizing w with
  | nil => exact h
  | cons o os ih => exact ih (h.preserve_applyOp o)

/-- Every reachable world satisfies the invariant. -/
theorem Inv.of_reachable {w : World} (h : Reachable w) : Inv w := by
  obtain ⟨ops, rfl⟩ := h
  exact Inv.initial.preserve_applyOps ops

end TimerSpec


/-! ### Behaviour of the batch operations -/

namespace TimerSpec

namespace Timer

/-- When the `UUID_MAP` entry is absent, no native timer is armed for the
task. -/
theorem armedFor_of_uuid_none {w : World} {t : Nat}
    (h : (getState w t).uuid = none) : armedFor w t = false := by
  simp [armedFor, h]

/-- `stopTimers` over a snapshot list: never throws, keeps the registry,
stops every listed timer and leaves every not-running timer (and every
unlisted timer) untouched. -/
theorem stopTimersGo_spec (L : List Nat) (w : World) (h : Inv w) :
    (stopTimersGo w L).2 = none ∧
    (stopTimersGo w L).1.timers = w.timers ∧
    (∀ t, t ∈ L → (getState (stopTimersGo w L).1 t).isRunning = false) ∧
    (∀ t, (getState w t).isRunning = false →
      getState (stopTimersGo w L).1 t = getState w t) ∧
    (∀ t, t ∉ L → getState (stopTimersGo w L).1 t = getState w t) := by
  induction L generalizing w with
  | nil =>
      exact ⟨rfl, rfl, by simp, fun t _ => rfl, fun t _ => rfl⟩
  | cons u ts ih =>
      cases hr : (getState w u).isRunning
      · have hgo : stopTimersGo w (u :: ts) = stopTimersGo w ts := by
          simp only [stopTimersGo, stopTimer_not_running w u hr]
        obtain ⟨ih1, ih2, ih3, ih4, ih5⟩ := ih _ h
        rw [hgo]
        refine ⟨ih1, ih2, ?_, ih4, ?_⟩
        · intro t ht
          rcases List.mem_cons.mp ht with rfl | ht
          · rw [ih4 t hr]
            exact hr
          · exact ih3 t ht
        · intro t ht
          exact ih5 t (fun hts => ht (List.mem_cons_of_mem u hts))
      · have hsome : ((getState w u).uuid).isSome = true := by
          rw [← h u]
          exact hr
        obtain ⟨n, hn⟩ := Option.isSome_iff_exists.mp hsome
        obtain ⟨e0, hself, hres, harm, htim, hnt, hnu, hnp, hfr⟩ := stop_spec w u n hn
        have hpair : stopTimer w u = ((stop w u).1, none) := by
          rw [stopTimer_running w u hr, ← e0]
        have hgo : stopTimersGo w (u :: ts) = stopTimersGo (stop w u).1 ts := by
          simp only [stopTimersGo, hpair]
        obtain ⟨ih1, ih2, ih3, ih4, ih5⟩ := ih _ (h.preserve_stop u)
        rw [hgo]
        have hu1 : (getState (stop w u).1 u).isRunning = false := by
          rw [hself]
        refine ⟨ih1, ih2.trans htim, ?_, ?_, ?_⟩
        · intro t ht
          rcases List.mem_cons.mp ht with rfl | ht
          · by_cases hts : t ∈ ts
            · exact ih3 t hts
            · rw [ih5 t hts]
              exact hu1
          · exact ih3 t ht
        · intro t hnr
          have htu : t ≠ u := by
            intro hteq
            subst hteq
            rw [hnr] at hr
            exact Bool.false_ne_true hr
          have hw1 : getState (stop w u).1 t = getState w t := hfr t htu
          have hnr1 : (getState (stop w u).1 t).isRunning = false := by
            rw [hw1]
            exact hnr
          rw [ih4 t hnr1]
          exact hw1
        · intro t ht
          have htu : t ≠ u := fun hteq => ht (hteq ▸ List.mem_cons_self u ts)
          have hts : t ∉ ts := fun hmem => ht (List.mem_cons_of_mem u hmem)
          rw [ih5 t hts]
          exact hfr t htu

/-- `clearTimers` over a snapshot list: never throws, removes every listed
timer from the registry, leaves each listed timer not running with no
`UUID_MAP` entry, and leaves unlisted timers untouched. -/
theorem clearTimersGo_spec (L : List Nat) (w : World) (h : Inv w) :
    (clearTimersGo w L).2 = none ∧
    (clearTimersGo w L).1.timers = w.timers.filter (fun s => !L.contains s) ∧
    (∀ t, t ∈ L → (getState (clearTimersGo w L).1 t).isRunning = false ∧
      (getState (clearTimersGo w L).1 t).uuid = none) ∧
    (∀ t, t ∉ L → getState (clearTimersGo w L).1 t = getState w t) := by
  induction L generalizing w with
  | nil =>
      refine ⟨rfl, by simp [clearTimersGo], by simp, fun t _ => rfl⟩
  | cons u ts ih =>
      have hsafe : (getState w u).isRunning = true → ((getState w u).uuid).isSome = true := by
        intro hr
        rw [← h u]
        exact hr
      obtain ⟨e0, htim, hself, hres, hnt, hnu, hnp, hfr⟩ := clearTimer_spec w u hsafe
      have hpair : clearTimer w u = ((clearTimer w u).1, none) := by
        rw [← e0]
      have hgo : clearTimersGo w (u :: ts) = clearTimersGo (clearTimer w u).1 ts := by
        simp only [clearTimersGo]
        rw [hpair]
      obtain ⟨ih1, ih2, ih3, ih4⟩ := ih _ (h.preserve_clearTimer u)
      rw [hgo]
      have hu1 : (getState (clearTimer w u).1 u).isRunning = false ∧
          (getState (clearTimer w u).1 u).uuid = none := by
        rw [hself]
        exact ⟨rfl, rfl⟩
      refine ⟨ih1, ?_, ?_, ?_⟩
      · rw [ih2, htim, List.filter_filter]
        apply List.filter_congr
        intro s _
        by_cases hsu : s = u <;> simp [hsu, List.contains_cons, Bool.and_comm]
      · intro t ht
        rcases List.mem_cons.mp ht with rfl | ht
        · by_cases hts : t ∈ ts
          · exact ih3 t hts
          · rw [ih4 t hts]
            exact hu1
        · exact ih3 t ht
      · intro t ht
        have htu : t ≠ u := fun hteq => ht (hteq ▸ List.mem_cons_self u ts)
        have hts : t ∉ ts := fun hmem => ht (List.mem_cons_of_mem u hmem)
        rw [ih4 t hts]
        exact hfr t htu

/-- The batch operations are identities on a world with an empty registry. -/
theorem runTimers_empty {w : World} (h : w.timers = []) : runTimers w = w := by
  simp [runTimers, h, runTimersGo]

theorem stopTimers_empty {w : World} (h : w.timers = []) : stopTimers w = (w, none) := by
  simp [stopTimers, h, stopTimersGo]

theorem clearTimers_empty {w : World} (h : w.timers = []) : clearTimers w = (w, none) := by
  simp [clearTimers, h, clearTimersGo]

end Timer

/-- On a world with an empty registry every sequence of batch methods is the
identity. -/
theorem applyBatches_empty {w : World} (h : w.timers = []) (bs : List BatchOp) :
    applyBatches w bs = w := by
  induction bs with
  | nil => rfl
  | cons b bs ih =>
      have hb : applyBatch w b = w := by
        cases b with
        | runAll => exact Timer.runTimers_empty h
        | stopAll => rw [applyBatch, Timer.stopTimers_empty h]
        | clearAll => rw [applyBatch, Timer.clearTimers_empty h]
      rw [applyBatches, hb]
      exact ih

end TimerSpec

/-! ### Claim theorems -/

namespace TimerSpec

/-- Claim C1 (code divergence, evaluated at the failing input): for a
one-shot task, after `run()` (returning promise 0), `stop()`, and `run()`
again (returning promise 1), the second handle is already resolved at the
second `run()` call itself — before the native timer has fired (the armed
timer is fresh, the callback has run 0 times) and before the first handle
resolves (promise 0 is still pending, unresolved).  The two handles do not
resolve together at the original completion event. -/
theorem run_stop_run_resolves_second_handle_immediately :
    (Timer.run wStopped 0).2 = 1 ∧
    1 ∈ (Timer.run wStopped 0).1.resolved ∧
    0 ∉ (Timer.run wStopped 0).1.resolved ∧
    (getState (Timer.run wStopped 0).1 0).pending = some 0 ∧
    (getState (Timer.run wStopped 0).1 0).count = 0 ∧
    Timer.armedFor (Timer.run wStopped 0).1 0 = true := by decide

/-- Claim C2 (counterexample): for a running repeating task, calling `run()`
again does not leave the pending completion present and unresolved — the
internal stop resolves promise 0 and the new call stores a fresh pending
promise. -/
theorem rerun_of_running_interval_resolves_old_pending :
    Timer.armedFor wRepeatArmed 0 = true ∧
    (getState wRepeatArmed 0).pending = some 0 ∧
    0 ∉ wRepeatArmed.resolved ∧
    0 ∈ (Timer.run wRepeatArmed 0).1.resolved ∧
    (getState (Timer.run wRepeatArmed 0).1 0).pending = some 1 := by decide

/-- Claim C2 (amended): `run()` on a task with an armed native timer `n` and
unresolved pending completion `p` first disarms `n` and arms a fresh native
timer; for a non-repeating task the internal stop leaves `p` stored and
unresolved, while for a repeating task the internal stop resolves `p` and the
new call stores the fresh promise instead. -/
theorem rerun_disarms_then_arms_and_pending_rule (w : World) (t n p : Nat)
    (hu : (getState w t).uuid = some n)
    (ha : Timer.armedFor w t = true)
    (hp : (getState w t).pending = some p)
    (hunres : p ∉ w.resolved)
    (hfresh : p < w.nextPromise) :
    (getState (Timer.run w t).1 t).uuid = some w.nextUuid ∧
    (Timer.run w t).1.armedNative = w.nextUuid :: w.armedNative.filter (fun m => m != n) ∧
    ((getState w t).repeats = false →
      (getState (Timer.run w t).1 t).pending = some p ∧
      p ∉ (Timer.run w t).1.resolved) ∧
    ((getState w t).repeats = true →
      p ∈ (Timer.run w t).1.resolved ∧
      (getState (Timer.run w t).1 t).pending = some (Timer.run w t).2) := by
  obtain ⟨hsnd, hself, harm, hres, -⟩ := Timer.run_spec_armed w t n p hu hp
  refine ⟨by rw [hself], harm, ?_, ?_⟩
  · intro hrep
    constructor
    · rw [hself]
      simp [hrep]
    · rw [hres, hrep]
      simp
      exact ⟨Nat.ne_of_lt hfresh, hunres⟩
  · intro hrep
    constructor
    · rw [hres, hrep]
      simp
    · rw [hself, hsnd]
      simp [hrep]

/-- Claim C3 (code divergence, evaluated at the failing input): a one-shot
task whose armed native timer fires naturally does not transition to Idle:
after the fire, `isRunning` is still `true` and the `UUID_MAP` entry is still
present, although no native timer is armed any more. -/
theorem natural_fire_leaves_task_marked_running :
    Timer.canFireTimeout wArmed 0 = true ∧
    (getState wStale 0).isRunning = true ∧
    Timer.hasTimer wStale 0 = true ∧
    Timer.armedFor wStale 0 = false ∧
    (getState wStale 0).count = 1 := by decide

/-- Claim C4 (counterexample): `stop()` does not raise exactly when no native
timer is armed — on a one-shot whose timer already fired naturally, no native
timer is armed, yet `stop()` succeeds (the stale `UUID_MAP` entry passes the
guard). -/
theorem stop_succeeds_on_fired_one_shot :
    Timer.armedFor wStale 0 = false ∧
    (Timer.stop wStale 0).2 = none := by decide

/-- Claim C4 (amended): `stop()` raises the InvalidState error if and only if
the task has no recorded native-handle entry (`hasTimer` is false): it raises
when the task was never run or was already stopped, does not raise while a
native timer is armed, and also does not raise on a one-shot whose timer
already fired (whose stale entry remains); the error is returned
synchronously by the call. -/
theorem stop_raises_iff_no_handle_entry (w : World) (t : Nat) :
    (Timer.stop w t).2 = some Timer.TimerErr.invalidState ↔
      Timer.hasTimer w t = false := by
  rcases hu : (getState w t).uuid with _ | n
  · rw [Timer.stop_err w t hu]
    simp [Timer.hasTimer, hu]
  · obtain ⟨e0, -⟩ := Timer.stop_spec w t n hu
    rw [e0]
    simp [Timer.hasTimer, hu]

/-- Claim C9 (counterexample): it is not true that `stop()` raises (and
leaves the state unchanged) on every task with no currently armed native
timer: on a fired one-shot there is no armed native timer, yet `stop()`
succeeds and mutates the state. -/
theorem stop_mutates_fired_one_shot :
    Timer.armedFor wStale 0 = false ∧
    (Timer.stop wStale 0).2 = none ∧
    (Timer.stop wStale 0).1 ≠ wStale ∧
    (getState (Timer.stop wStale 0).1 0).isRunning = false ∧
    (getState wStale 0).isRunning = true := by decide

/-- Claim C9 (amended): `stop()` is atomic on error — when the task has no
recorded native-handle entry, the error is raised by the first statement of
`stop()`, before any mutation, so the whole world (per-task state, registry,
pending completions, armed timers) is exactly as before the call. -/
theorem stop_error_leaves_world_unchanged (w : World) (t : Nat)
    (h : Timer.hasTimer w t = false) :
    Timer.stop w t = (w, some Timer.TimerErr.invalidState) := by
  rcases hu : (getState w t).uuid with _ | n
  · exact Timer.stop_err w t hu
  · rw [Timer.hasTimer, hu] at h
    simp at h

/-- Witness for the amended C9 statement: a freshly constructed, never-run
timer has no handle entry, and `stop()` on it returns the unchanged world
with the error. -/
theorem stop_error_leaves_world_unchanged_witness :
    Timer.hasTimer wOneShot 0 = false ∧
    Timer.stop wOneShot 0 = (wOneShot, some Timer.TimerErr.invalidState) :=
  ⟨by decide, stop_error_leaves_world_unchanged wOneShot 0 (by decide)⟩

/-- Witness for the amended C2 statement: the armed one-shot world satisfies
the hypotheses, and the conclusions hold there. -/
theorem rerun_disarms_then_arms_and_pending_rule_witness :
    (getState wArmed 0).uuid = some 0 ∧
    Timer.armedFor wArmed 0 = true ∧
    (getState wArmed 0).pending = some 0 ∧
    0 ∉ wArmed.resolved ∧
    0 < wArmed.nextPromise ∧
    (getState (Timer.run wArmed 0).1 0).uuid = some wArmed.nextUuid :=
  ⟨by decide, by decide, by decide, by decide, by decide,
    (rerun_disarms_then_arms_and_pending_rule wArmed 0 0 0 (by decide) (by decide)
      (by decide) (by decide) (by decide)).1⟩

end TimerSpec

namespace TimerSpec

/-- Claim C5: in every reachable world, `stopTimers` stops exactly the
registered running tasks: it never raises (the running check guards each
per-task stop), the registry is unchanged, afterwards no registered task is
running or armed, and every task that was not running — as well as every
unregistered task — is untouched. -/
theorem stopTimers_stops_exactly_running (w : World) (h : Reachable w) :
    (Timer.stopTimers w).2 = none ∧
    (Timer.stopTimers w).1.timers = w.timers ∧
    (∀ t, t ∈ w.timers → (getState (Timer.stopTimers w).1 t).isRunning = false ∧
      Timer.armedFor (Timer.stopTimers w).1 t = false) ∧
    (∀ t, (getState w t).isRunning = false →
      getState (Timer.stopTimers w).1 t = getState w t) ∧
    (∀ t, t ∉ w.timers → getState (Timer.stopTimers w).1 t = getState w t) := by
  have hInv : Inv w := Inv.of_reachable h
  obtain ⟨h1, h2, h3, h4, h5⟩ := Timer.stopTimersGo_spec w.timers w hInv
  have hInv1 : Inv (Timer.stopTimersGo w w.timers).1 := hInv.preserve_stopTimersGo w.timers
  refine ⟨h1, h2, ?_, h4, h5⟩
  intro t ht
  have hnr : (getState (Timer.stopTimersGo w w.timers).1 t).isRunning = false := h3 t ht
  refine ⟨hnr, ?_⟩
  have hsome : ((getState (Timer.stopTimersGo w w.timers).1 t).uuid).isSome = false := by
    rw [← hInv1 t]
    exact hnr
  have hnone : (getState (Timer.stopTimersGo w w.timers).1 t).uuid = none := by
    rcases hc : (getState (Timer.stopTimersGo w w.timers).1 t).uuid with _ | m
    · rfl
    · rw [hc] at hsome
      simp at hsome
  exact Timer.armedFor_of_uuid_none hnone

/-- Witness for C5: a reachable world with one running repeating task (id 0)
and one idle one-shot task (id 1); `stopAll` raises nothing and stops task
0. -/
theorem stopTimers_stops_exactly_running_witness :
    Reachable (applyOps World.initial [.newTimer true, .newTimer false, .runOn 0]) ∧
    (Timer.stopTimers (applyOps World.initial [.newTimer true, .newTimer false, .runOn 0])).2
      = none ∧
    (getState
      (Timer.stopTimers (applyOps World.initial [.newTimer true, .newTimer false, .runOn 0])).1
      0).isRunning = false :=
  ⟨⟨[.newTimer true, .newTimer false, .runOn 0], rfl⟩,
    (stopTimers_stops_exactly_running _
      ⟨[.newTimer true, .newTimer false, .runOn 0], rfl⟩).1,
    ((stopTimers_stops_exactly_running _
      ⟨[.newTimer true, .newTimer false, .runOn 0], rfl⟩).2.2.1 0 (by decide)).1⟩

/-- Claim C6: a successful `stop()` on a task with an armed native timer `n`
and unresolved pending completion `p` marks the task not running, deletes the
handle entry and disarms `n`; it resolves and clears `p` if and only if the
task is repeating, and for a non-repeating task `p` stays stored and
unresolved. -/
theorem stop_disarms_and_resolves_iff_repeating (w : World) (t n p : Nat)
    (hu : (getState w t).uuid = some n)
    (ha : Timer.armedFor w t = true)
    (hp : (getState w t).pending = some p)
    (hunres : p ∉ w.resolved) :
    (Timer.stop w t).2 = none ∧
    (getState (Timer.stop w t).1 t).isRunning = false ∧
    Timer.hasTimer (Timer.stop w t).1 t = false ∧
    Timer.armedFor (Timer.stop w t).1 t = false ∧
    n ∉ (Timer.stop w t).1.armedNative ∧
    (((getState (Timer.stop w t).1 t).pending = none ∧ p ∈ (Timer.stop w t).1.resolved)
      ↔ (getState w t).repeats = true) ∧
    ((getState w t).repeats = false →
      (getState (Timer.stop w t).1 t).pending = some p ∧
      p ∉ (Timer.stop w t).1.resolved) := by
  obtain ⟨e0, hself, hres, harm, -⟩ := Timer.stop_spec w t n hu
  have hnone : (getState (Timer.stop w t).1 t).uuid = none := by
    rw [hself]
  refine ⟨e0, by rw [hself], ?_, Timer.armedFor_of_uuid_none hnone, ?_, ?_, ?_⟩
  · simp [Timer.hasTimer, hnone]
  · rw [harm]
    simp
  · cases hrep : (getState w t).repeats
    · constructor
      · intro hcontra
        have : (getState (Timer.stop w t).1 t).pending = some p := by
          rw [hself]
          simp [hrep, hp]
        rw [this] at hcontra
        exact absurd hcontra.1 (by simp)
      · intro hcontra
        exact absurd hcontra (by simp [hrep])
    · constructor
      · intro _
        rfl
      · intro _
        constructor
        · rw [hself]
          simp [hrep]
        · rw [hres]
          simp [hrep, hp]
  · intro hrep
    constructor
    · rw [hself]
      simp [hrep, hp]
    · rw [hres]
      simp [hrep]
      exact hunres

/-- Witness for C6: stopping the armed repeating task resolves its pending
promise 0. -/
theorem stop_disarms_and_resolves_iff_repeating_witness :
    (getState wRepeatArmed 0).uuid = some 0 ∧
    Timer.armedFor wRepeatArmed 0 = true ∧
    (getState wRepeatArmed 0).pending = some 0 ∧
    0 ∉ wRepeatArmed.resolved ∧
    (Timer.stop wRepeatArmed 0).2 = none :=
  ⟨by decide, by decide, by decide, by decide,
    (stop_disarms_and_resolves_iff_repeating wRepeatArmed 0 0 0 (by decide) (by decide)
      (by decide) (by decide)).1⟩

/-- Claim C7: for a non-repeating task that is idle with no stored resolve
function, `run()` arms a fireable native timer and does not invoke the
callback; the handle it returns is unresolved until the timer fires; the
natural fire then invokes the callback exactly once more and immediately
resolves and clears the pending completion — so running and awaiting the
handle observes exactly one invocation. -/
theorem one_shot_fire_resolves_after_one_invocation (w : World) (t : Nat)
    (hrep : (getState w t).repeats = false)
    (hu : (getState w t).uuid = none)
    (hp : (getState w t).pending = none)
    (hfresh : w.nextPromise ∉ w.resolved) :
    Timer.canFireTimeout (Timer.run w t).1 t = true ∧
    (getState (Timer.run w t).1 t).count = (getState w t).count ∧
    (Timer.run w t).2 ∉ (Timer.run w t).1.resolved ∧
    (getState (Timer.fireTimeout (Timer.run w t).1 t) t).count
      = (getState w t).count + 1 ∧
    (Timer.run w t).2 ∈ (Timer.fireTimeout (Timer.run w t).1 t).resolved ∧
    (getState (Timer.fireTimeout (Timer.run w t).1 t) t).pending = none := by
  obtain ⟨hsnd, hself, harm, hres, -⟩ := Timer.run_spec_fresh w t hu hp
  have hu1 : (getState (Timer.run w t).1 t).uuid = some w.nextUuid := by
    rw [hself]
  obtain ⟨hfself, hfres, -⟩ := Timer.fireTimeout_spec (Timer.run w t).1 t w.nextUuid hu1
  have hpend1 : (getState (Timer.run w t).1 t).pending = some w.nextPromise := by
    rw [hself]
  refine ⟨?_, by rw [hself], ?_, ?_, ?_, ?_⟩
  · have hrep1 : (getState (Timer.run w t).1 t).repeats = false := by
      rw [hself]
      exact hrep
    have harmed : Timer.armedFor (Timer.run w t).1 t = true := by
      rw [Timer.armedFor, hu1, harm]
      simp
    simp [Timer.canFireTimeout, hrep1, harmed]
  · rw [hres, hsnd]
    exact hfresh
  · rw [hfself, hself]
  · rw [hfres, hpend1, hsnd]
    simp
  · rw [hfself]

/-- Witness for C7: the fresh one-shot task; after `run()` and the natural
fire, the callback ran once and the returned promise 0 is resolved. -/
theorem one_shot_fire_resolves_after_one_invocation_witness :
    (getState wOneShot 0).repeats = false ∧
    (getState wOneShot 0).uuid = none ∧
    (getState wOneShot 0).pending = none ∧
    wOneShot.nextPromise ∉ wOneShot.resolved ∧
    (getState (Timer.fireTimeout (Timer.run wOneShot 0).1 0) 0).count
      = (getState wOneShot 0).count + 1 :=
  ⟨by decide, by decide, by decide, by decide,
    (one_shot_fire_resolves_after_one_invocation wOneShot 0 (by decide) (by decide)
      (by decide) (by decide)).2.2.2.1⟩

/-- Claim C8: in every reachable world, `clearTimers` never raises, stops
every running registered task, leaves every previously registered task with
no handle entry and no armed timer, and empties the registry; afterwards
every sequence of batch operations is the identity, so a cleared task is
never affected by a later `runAll`/`stopAll`/`clearAll`. -/
theorem clearTimers_empties_registry (w : World) (h : Reachable w) :
    (Timer.clearTimers w).2 = none ∧
    (Timer.clearTimers w).1.timers = [] ∧
    (∀ t, t ∈ w.timers →
      (getState (Timer.clearTimers w).1 t).isRunning = false ∧
      Timer.hasTimer (Timer.clearTimers w).1 t = false ∧
      Timer.armedFor (Timer.clearTimers w).1 t = false) ∧
    (∀ bs : List BatchOp, applyBatches (Timer.clearTimers w).1 bs
      = (Timer.clearTimers w).1) := by
  have hInv : Inv w := Inv.of_reachable h
  obtain ⟨h1, h2, h3, h4⟩ := Timer.clearTimersGo_spec w.timers w hInv
  have hempty : (Timer.clearTimersGo w w.timers).1.timers = [] := by
    rw [h2, List.filter_eq_nil_iff]
    intro a ha
    simp [ha]
  refine ⟨h1, hempty, ?_, ?_⟩
  · intro t ht
    obtain ⟨hnr, hnone⟩ := h3 t ht
    refine ⟨hnr, ?_, Timer.armedFor_of_uuid_none hnone⟩
    show ((getState (Timer.clearTimersGo w w.timers).1 t).uuid).isSome = false
    rw [hnone]
    rfl
  · intro bs
    exact applyBatches_empty hempty bs

/-- Witness for C8: clearing the world with the running repeating task and an
idle one-shot task empties the registry. -/
theorem clearTimers_empties_registry_witness :
    Reachable (applyOps World.initial [.newTimer true, .newTimer false, .runOn 0]) ∧
    (Timer.clearTimers (applyOps World.initial [.newTimer true, .newTimer false, .runOn 0])).1.timers
      = [] :=
  ⟨⟨[.newTimer true, .newTimer false, .runOn 0], rfl⟩,
    (clearTimers_empties_registry _
      ⟨[.newTimer true, .newTimer false, .runOn 0], rfl⟩).2.1⟩

end TimerSpec

/-! ### Component lemmas for `fireTimeout` and `clearTimer` -/

namespace TimerSpec

namespace Timer

/-- `fireTimeout` never changes another timer's state. -/
theorem fireTimeout_frame (w : World) (t : Nat) {s : Nat} (h : s ≠ t) :
    getState (fireTimeout w t) s = getState w s := by
  rcases hu : (getState w t).uuid with _ | n
  · rw [fireTimeout_id w t hu]
  · obtain ⟨-, -, -, -, -, -, -, hfr⟩ := fireTimeout_spec w t n hu
    exact hfr s h

/-- `fireTimeout` leaves the registry and the counters unchanged. -/
theorem fireTimeout_proj (w : World) (t : Nat) :
    (fireTimeout w t).timers = w.timers ∧
    (fireTimeout w t).nextTask = w.nextTask ∧
    (fireTimeout w t).nextPromise = w.nextPromise := by
  rcases hu : (getState w t).uuid with _ | n
  · rw [fireTimeout_id w t hu]
    exact ⟨rfl, rfl, rfl⟩
  · obtain ⟨-, -, -, h1, h2, -, h3, -⟩ := fireTimeout_spec w t n hu
    exact ⟨h1, h2, h3⟩

/-- Promise ids resolved by `fireTimeout`: only the fired timer's stored
one. -/
theorem fireTimeout_resolved_sub (w : World) (t : Nat) {x : Nat}
    (hx : x ∈ (fireTimeout w t).resolved) :
    x ∈ w.resolved ∨ (getState w t).pending = some x := by
  rcases hu : (getState w t).uuid with _ | n
  · rw [fireTimeout_id w t hu] at hx
    exact Or.inl hx
  · obtain ⟨-, hres, -⟩ := fireTimeout_spec w t n hu
    rw [hres] at hx
    rcases hp : (getState w t).pending with _ | p0
    · rw [hp] at hx
      exact Or.inl hx
    · rw [hp] at hx
      rcases List.mem_cons.mp hx with h | h
      · subst h
        exact Or.inr rfl
      · exact Or.inl h

/-- After `fireTimeout`, the stored resolve function is either cleared or
unchanged. -/
theorem fireTimeout_pending_self (w : World) (t : Nat) :
    (getState (fireTimeout w t) t).pending = none ∨
    (getState (fireTimeout w t) t).pending = (getState w t).pending := by
  rcases hu : (getState w t).uuid with _ | n
  · rw [fireTimeout_id w t hu]
    exact Or.inr rfl
  · obtain ⟨hself, -⟩ := fireTimeout_spec w t n hu
    rw [hself]
    exact Or.inl rfl

/-- `clearTimer` never changes another timer's state. -/
theorem clearTimer_frame (w : World) (t : Nat) {s : Nat} (h : s ≠ t) :
    getState (clearTimer w t).1 s = getState w s := by
  rcases hst : stopTimer w t with ⟨w1, e⟩
  have hfr : getState w1 s = getState w s := by
    have h0 := stopTimer_frame w t h
    rw [hst] at h0
    exact h0
  cases e with
  | some e =>
      simp only [clearTimer, hst]
      exact hfr
  | none =>
      simp only [clearTimer, hst]
      rw [← hfr]
      simp [getState, setState, stateOf_cons_ne _ _ _ _ h]

/-- `clearTimer` only removes from the registry. -/
theorem clearTimer_timers_sub (w : World) (t : Nat) {s : Nat}
    (h : s ∉ w.timers) : s ∉ (clearTimer w t).1.timers := by
  rcases hst : stopTimer w t with ⟨w1, e⟩
  have ht1 : w1.timers = w.timers := by
    have h0 := (stopTimer_proj w t).1
    rw [hst] at h0
    exact h0
  cases e with
  | some e =>
      simp only [clearTimer, hst]
      rw [ht1]
      exact h
  | none =>
      simp only [clearTimer, hst]
      intro hmem
      simp only [setState_timers] at hmem
      have := List.mem_of_mem_filter hmem
      rw [ht1] at this
      exact h this

/-- `clearTimer` leaves the counters unchanged. -/
theorem clearTimer_proj (w : World) (t : Nat) :
    (clearTimer w t).1.nextTask = w.nextTask ∧
    (clearTimer w t).1.nextPromise = w.nextPromise := by
  rcases hst : stopTimer w t with ⟨w1, e⟩
  obtain ⟨-, h2, -, h4⟩ := stopTimer_proj w t
  rw [hst] at h2 h4
  cases e with
  | some e =>
      simp only [clearTimer, hst]
      exact ⟨h2, h4⟩
  | none =>
      simp only [clearTimer, hst]
      exact ⟨h2, h4⟩

/-- Promise ids resolved by `clearTimer`: only the cleared timer's stored
one. -/
theorem clearTimer_resolved_sub (w : World) (t : Nat) {x : Nat}
    (hx : x ∈ (clearTimer w t).1.resolved) :
    x ∈ w.resolved ∨ (getState w t).pending = some x := by
  rcases hst : stopTimer w t with ⟨w1, e⟩
  have hsub : ∀ y, y ∈ w1.resolved → y ∈ w.resolved ∨ (getState w t).pending = some y := by
    intro y hy
    apply stopTimer_resolved_sub w t
    rw [hst]
    exact hy
  cases e with
  | some e =>
      simp only [clearTimer, hst] at hx
      exact hsub x hx
  | none =>
      simp only [clearTimer, hst] at hx
      exact hsub x hx

/-- After `clearTimer`, the stored resolve function is either cleared or
unchanged. -/
theorem clearTimer_pending_self (w : World) (t : Nat) :
    (getState (clearTimer w t).1 t).pending = none ∨
    (getState (clearTimer w t).1 t).pending = (getState w t).pending := by
  rcases hst : stopTimer w t with ⟨w1, e⟩
  have hps : (getState w1 t).pending = none ∨ (getState w1 t).pending = (getState w t).pending := by
    have h0 := stopTimer_pending_self w t
    rw [hst] at h0
    exact h0
  cases e with
  | some e =>
      simp only [clearTimer, hst]
      exact hps
  | none =>
      simp only [clearTimer, hst]
      have : getState (setState { w1 with timers := w1.timers.filter (fun s => s != t) } t
          { getState { w1 with timers := w1.timers.filter (fun s => s != t) } t with
              uuid := none } ) t =
          { getState w1 t with uuid := none } := by
        simp [getState, setState]
      rw [this]
      exact hps

end Timer

end TimerSpec

/-! ### A cleared one-shot task's unresolved completion stays unresolved -/

namespace TimerSpec

theorem Frozen.keep_construct {w : World} {t p : Nat} (h : Frozen w t p) (rep : Bool) :
    Frozen (Timer.construct w rep).1 t p := by
  obtain ⟨f1, f2, f3, f4, f5, f6, f7⟩ := h
  obtain ⟨-, htim, hnt, -, hres, -, hnp, hnew, hfr⟩ := Timer.construct_spec w rep
  have htne : t ≠ w.nextTask := Nat.ne_of_lt f6
  have hfrt : getState (Timer.construct w rep).1 t = getState w t := hfr t htne
  refine ⟨?_, ?_, ?_, ?_, ?_, ?_, ?_⟩
  · rw [htim]
    intro hmem
    rcases List.mem_append.mp hmem with hmem | hmem
    · exact f1 hmem
    · exact htne (List.mem_singleton.mp hmem)
  · rw [hfrt]
    exact f2
  · rw [hfrt]
    exact f3
  · rw [hres]
    exact f4
  · rw [hnp]
    exact f5
  · rw [hnt]
    exact Nat.lt_succ_of_lt f6
  · intro u hu
    by_cases hun : u = w.nextTask
    · subst hun
      rw [hnew]
      simp [TimerState.initial]
    · rw [hfr u hun]
      exact f7 u hu

theorem Frozen.keep_run {w : World} {t p : Nat} (h : Frozen w t p) {s : Nat} (hs : s ≠ t) :
    Frozen (Timer.run w s).1 t p := by
  obtain ⟨f1, f2, f3, f4, f5, f6, f7⟩ := h
  obtain ⟨htim, hnt, hnp⟩ := Timer.run_proj w s
  have hfrt : getState (Timer.run w s).1 t = getState w t :=
    Timer.run_frame w s (Ne.symm hs)
  refine ⟨?_, ?_, ?_, ?_, ?_, ?_, ?_⟩
  · rw [htim]
    exact f1
  · rw [hfrt]
    exact f2
  · rw [hfrt]
    exact f3
  · intro hmem
    rcases Timer.run_resolved_sub w s hmem with h' | h' | h'
    · exact f4 h'
    · exact f7 s hs h'
    · exact absurd h' (Nat.ne_of_lt f5)
  · rw [hnp]
    exact Nat.lt_succ_of_lt f5
  · rw [hnt]
    exact f6
  · intro u hu
    by_cases hus : u = s
    · subst hus
      rcases Timer.run_pending_self w u with h' | h'
      · rw [h']
        intro hc
        exact absurd (Option.some.inj hc).symm (Nat.ne_of_lt f5)
      · rw [h']
        exact f7 u hu
    · rw [Timer.run_frame w s hus]
      exact f7 u hu

theorem Frozen.keep_stop {w : World} {t p : Nat} (h : Frozen w t p) {s : Nat} (hs : s ≠ t) :
    Frozen (Timer.stop w s).1 t p := by
  obtain ⟨f1, f2, f3, f4, f5, f6, f7⟩ := h
  obtain ⟨htim, hnt, -, hnp⟩ := Timer.stop_proj w s
  have hfrt : getState (Timer.stop w s).1 t = getState w t :=
    Timer.stop_frame w s (Ne.symm hs)
  refine ⟨?_, ?_, ?_, ?_, ?_, ?_, ?_⟩
  · rw [htim]
    exact f1
  · rw [hfrt]
    exact f2
  · rw [hfrt]
    exact f3
  · intro hmem
    rcases Timer.stop_resolved_sub w s hmem with h' | h'
    · exact f4 h'
    · exact f7 s hs h'
  · rw [hnp]
    exact f5
  · rw [hnt]
    exact f6
  · intro u hu
    by_cases hus : u = s
    · subst hus
      rcases Timer.stop_pending_self w u with h' | h'
      · rw [h']
        simp
      · rw [h']
        exact f7 u hu
    · rw [Timer.stop_frame w s hus]
      exact f7 u hu

theorem Frozen.keep_stopTimer {w : World} {t p : Nat} (h : Frozen w t p) {s : Nat}
    (hs : s ≠ t) : Frozen (Timer.stopTimer w s).1 t p := by
  cases hr : (getState w s).isRunning
  · rw [Timer.stopTimer_not_running w s hr]
    exact h
  · rw [Timer.stopTimer_running w s hr]
    exact h.keep_stop hs

theorem Frozen.keep_runTimer {w : World} {t p : Nat} (h : Frozen w t p) {s : Nat}
    (hs : s ≠ t) : Frozen (Timer.runTimer w s) t p := by
  cases hr : (getState w s).isRunning
  · rw [Timer.runTimer_not_running w s hr]
    exact h.keep_run hs
  · rw [Timer.runTimer_running w s hr]
    exact h

theorem Frozen.keep_clearTimer {w : World} {t p : Nat} (h : Frozen w t p) {s : Nat}
    (hs : s ≠ t) : Frozen (Timer.clearTimer w s).1 t p := by
  obtain ⟨f1, f2, f3, f4, f5, f6, f7⟩ := h
  obtain ⟨hnt, hnp⟩ := Timer.clearTimer_proj w s
  have hfrt : getState (Timer.clearTimer w s).1 t = getState w t :=
    Timer.clearTimer_frame w s (Ne.symm hs)
  refine ⟨Timer.clearTimer_timers_sub w s f1, ?_, ?_, ?_, ?_, ?_, ?_⟩
  · rw [hfrt]
    exact f2
  · rw [hfrt]
    exact f3
  · intro hmem
    rcases Timer.clearTimer_resolved_sub w s hmem with h' | h'
    · exact f4 h'
    · exact f7 s hs h'
  · rw [hnp]
    exact f5
  · rw [hnt]
    exact f6
  · intro u hu
    by_cases hus : u = s
    · subst hus
      rcases Timer.clearTimer_pending_self w u with h' | h'
      · rw [h']
        simp
      · rw [h']
        exact f7 u hu
    · rw [Timer.clearTimer_frame w s hus]
      exact f7 u hu

theorem Frozen.keep_fireTimeout {w : World} {t p : Nat} (h : Frozen w t p) {s : Nat}
    (hs : s ≠ t) : Frozen (Timer.fireTimeout w s) t p := by
  obtain ⟨f1, f2, f3, f4, f5, f6, f7⟩ := h
  obtain ⟨htim, hnt, hnp⟩ := Timer.fireTimeout_proj w s
  have hfrt : getState (Timer.fireTimeout w s) t = getState w t :=
    Timer.fireTimeout_frame w s (Ne.symm hs)
  refine ⟨?_, ?_, ?_, ?_, ?_, ?_, ?_⟩
  · rw [htim]
    exact f1
  · rw [hfrt]
    exact f2
  · rw [hfrt]
    exact f3
  · intro hmem
    rcases Timer.fireTimeout_resolved_sub w s hmem with h' | h'
    · exact f4 h'
    · exact f7 s hs h'
  · rw [hnp]
    exact f5
  · rw [hnt]
    exact f6
  · intro u hu
    by_cases hus : u = s
    · subst hus
      rcases Timer.fireTimeout_pending_self w u with h' | h'
      · rw [h']
        simp
      · rw [h']
        exact f7 u hu
    · rw [Timer.fireTimeout_frame w s hus]
      exact f7 u hu

theorem Frozen.keep_fireInterval {w : World} {t p : Nat} (h : Frozen w t p) {s : Nat}
    (hs : s ≠ t) : Frozen (Timer.fireInterval w s) t p := by
  obtain ⟨f1, f2, f3, f4, f5, f6, f7⟩ := h
  obtain ⟨hself, hres, -, htim, hnt, -, hnp, hfr⟩ := Timer.fireInterval_spec w s
  have hfrt : getState (Timer.fireInterval w s) t = getState w t := hfr t (Ne.symm hs)
  refine ⟨?_, ?_, ?_, ?_, ?_, ?_, ?_⟩
  · rw [htim]
    exact f1
  · rw [hfrt]
    exact f2
  · rw [hfrt]
    exact f3
  · rw [hres]
    exact f4
  · rw [hnp]
    exact f5
  · rw [hnt]
    exact f6
  · intro u hu
    by_cases hus : u = s
    · subst hus
      rw [hself]
      exact f7 u hu
    · rw [hfr u hus]
      exact f7 u hu

end TimerSpec

namespace TimerSpec

/-- A task with an armed native timer has a `UUID_MAP` entry. -/
theorem armedFor_uuid_isSome {w : World} {s : Nat}
    (h : Timer.armedFor w s = true) : ((getState w s).uuid).isSome = true := by
  unfold Timer.armedFor at h
  rcases hu : (getState w s).uuid with _ | n
  · rw [hu] at h
    simp at h
  · simp [hu]

theorem Frozen.keep_stopTimersGo {t p : Nat} (L : List Nat) :
    ∀ w : World, Frozen w t p → t ∉ L →
      Frozen (Timer.stopTimersGo w L).1 t p := by
  induction L with
  | nil =>
      intro w h _
      exact h
  | cons u ts ih =>
      intro w h hL
      have hut : u ≠ t := fun he => hL (he ▸ List.mem_cons_self u ts)
      have hts : t ∉ ts := fun hm => hL (List.mem_cons_of_mem u hm)
      rcases hst : Timer.stopTimer w u with ⟨w1, e⟩
      have hw1 : Frozen w1 t p := by
        have h0 := h.keep_stopTimer hut
        rw [hst] at h0
        exact h0
      cases e with
      | none =>
          simp only [Timer.stopTimersGo, hst]
          exact ih w1 hw1 hts
      | some e =>
          simp only [Timer.stopTimersGo, hst]
          exact hw1

theorem Frozen.keep_runTimersGo {t p : Nat} (L : List Nat) :
    ∀ w : World, Frozen w t p → t ∉ L →
      Frozen (Timer.runTimersGo w L) t p := by
  induction L with
  | nil =>
      intro w h _
      exact h
  | cons u ts ih =>
      intro w h hL
      have hut : u ≠ t := fun he => hL (he ▸ List.mem_cons_self u ts)
      have hts : t ∉ ts := fun hm => hL (List.mem_cons_of_mem u hm)
      exact ih (Timer.runTimer w u) (h.keep_runTimer hut) hts

theorem Frozen.keep_clearTimersGo {t p : Nat} (L : List Nat) :
    ∀ w : World, Frozen w t p → t ∉ L →
      Frozen (Timer.clearTimersGo w L).1 t p := by
  induction L with
  | nil =>
      intro w h _
      exact h
  | cons u ts ih =>
      intro w h hL
      have hut : u ≠ t := fun he => hL (he ▸ List.mem_cons_self u ts)
      have hts : t ∉ ts := fun hm => hL (List.mem_cons_of_mem u hm)
      rcases hct : Timer.clearTimer w u with ⟨w1, e⟩
      have hw1 : Frozen w1 t p := by
        have h0 := h.keep_clearTimer hut
        rw [hct] at h0
        exact h0
      cases e with
      | none =>
          simp only [Timer.clearTimersGo, hct]
          exact ih w1 hw1 hts
      | some e =>
          simp only [Timer.clearTimersGo, hct]
          exact hw1

theorem Frozen.keep_applyOp {w : World} {t p : Nat} (h : Frozen w t p) (o : Op) :
    Frozen (applyOp w o) t p := by
  cases o with
  | newTimer rep => exact h.keep_construct rep
  | runOn s =>
      show Frozen (if s ∈ w.timers then (Timer.run w s).1 else w) t p
      split_ifs with hmem
      · exact h.keep_run (fun he => h.1 (he ▸ hmem))
      · exact h
  | stopOn s =>
      show Frozen (if s ∈ w.timers then (Timer.stop w s).1 else w) t p
      split_ifs with hmem
      · exact h.keep_stop (fun he => h.1 (he ▸ hmem))
      · exact h
  | clearOn s =>
      show Frozen (if s ∈ w.timers then (Timer.clearTimer w s).1 else w) t p
      split_ifs with hmem
      · exact h.keep_clearTimer (fun he => h.1 (he ▸ hmem))
      · exact h
  | runAll => exact Frozen.keep_runTimersGo w.timers w h h.1
  | stopAll => exact Frozen.keep_stopTimersGo w.timers w h h.1
  | clearAll => exact Frozen.keep_clearTimersGo w.timers w h h.1
  | fireT s =>
      show Frozen (if Timer.canFireTimeout w s = true then Timer.fireTimeout w s else w) t p
      split_ifs with hcan
      · have harmed : Timer.armedFor w s = true := by
          simp [Timer.canFireTimeout, Bool.and_eq_true] at hcan
          exact hcan.2
        have hs : s ≠ t := by
          intro he
          subst he
          have := armedFor_uuid_isSome harmed
          rw [h.2.1] at this
          simp at this
        exact h.keep_fireTimeout hs
      · exact h
  | fireI s =>
      show Frozen (if Timer.canFireInterval w s = true then Timer.fireInterval w s else w) t p
      split_ifs with hcan
      · have harmed : Timer.armedFor w s = true := by
          simp [Timer.canFireInterval, Bool.and_eq_true] at hcan
          exact hcan.2
        have hs : s ≠ t := by
          intro he
          subst he
          have := armedFor_uuid_isSome harmed
          rw [h.2.1] at this
          simp at this
        exact h.keep_fireInterval hs
      · exact h

theorem Frozen.keep_applyOps {w : World} {t p : Nat} (h : Frozen w t p) (ops : List Op) :
    Frozen (applyOps w ops) t p := by
  induction ops generalizing w with
  | nil => exact h
  | cons o os ih => exact ih (h.keep_applyOp o)

/-- A successful keyed lookup returns an entry of the list. -/
theorem lookup_mem {l : List (Nat × TimerState)} {s : Nat} {v : TimerState}
    (h : l.lookup s = some v) : (s, v) ∈ l := by
  induction l with
  | nil => simp [List.lookup] at h
  | cons a l ih =>
      rcases a with ⟨k, u⟩
      by_cases hk : s = k
      · subst hk
        rw [List.lookup] at h
        simp at h
        subst h
        exact List.mem_cons_self _ _
      · rw [List.lookup] at h
        rw [beq_false_of_ne hk] at h
        exact List.mem_cons_of_mem _ (ih h)

/-- If no map entry with another key stores the resolve function of promise
`p`, then no other task's state stores it. -/
theorem pending_ne_of_states {w : World} {t p : Nat}
    (h : ∀ q ∈ w.states, q.1 ≠ t → q.2.pending ≠ some p)
    {s : Nat} (hs : s ≠ t) : (getState w s).pending ≠ some p := by
  rcases hl : w.states.lookup s with _ | v
  · have hd : getState w s = TimerState.initial false := by
      simp [getState, stateOf, hl]
    rw [hd]
    simp [TimerState.initial]
  · have hd : getState w s = v := by
      simp [getState, stateOf, hl]
    rw [hd]
    exact h (s, v) (lookup_mem hl) hs

/-- Claim C10: `clear()` on a non-repeating task with an unresolved pending
completion `p` (idle or running) succeeds without resolving `p`; afterwards
`p` stays stored for the cleared task and unresolved under every sequence of
further operations — constructions, instance calls on registered timers,
batch operations and native firings — because no operation can reach the
deregistered, disarmed task any more. -/
theorem clear_keeps_one_shot_pending_unresolved (w : World) (t p : Nat)
    (hrep : (getState w t).repeats = false)
    (hp : (getState w t).pending = some p)
    (hunres : p ∉ w.resolved)
    (hsafe : (getState w t).isRunning = true → ((getState w t).uuid).isSome = true)
    (hfresh : p < w.nextPromise)
    (htask : t < w.nextTask)
    (hothers : ∀ q ∈ w.states, q.1 ≠ t → q.2.pending ≠ some p) :
    (Timer.clearTimer w t).2 = none ∧
    (getState (Timer.clearTimer w t).1 t).pending = some p ∧
    p ∉ (Timer.clearTimer w t).1.resolved ∧
    ∀ ops : List Op,
      (getState (applyOps (Timer.clearTimer w t).1 ops) t).pending = some p ∧
      p ∉ (applyOps (Timer.clearTimer w t).1 ops).resolved := by
  obtain ⟨e0, htim, hself, hres, hnt, hnu, hnp, hfr⟩ := Timer.clearTimer_spec w t hsafe
  have hcond : ((getState w t).isRunning && (getState w t).repeats) = false := by
    rw [hrep]
    simp
  have hfro : Frozen (Timer.clearTimer w t).1 t p := by
    refine ⟨?_, ?_, ?_, ?_, ?_, ?_, ?_⟩
    · rw [htim]
      intro hmem
      have := (List.mem_filter.mp hmem).2
      simp at this
    · rw [hself]
    · rw [hself]
      simp [hcond, hp]
    · rw [hres]
      simp [hcond]
      exact hunres
    · rw [hnp]
      exact hfresh
    · rw [hnt]
      exact htask
    · intro u hu
      rw [hfr u hu]
      exact pending_ne_of_states hothers hu
  refine ⟨e0, hfro.2.2.1, hfro.2.2.2.1, ?_⟩
  intro ops
  have h2 : Frozen (applyOps (Timer.clearTimer w t).1 ops) t p := hfro.keep_applyOps ops
  exact ⟨h2.2.2.1, h2.2.2.2.1⟩

/-- Witness for C10: clearing the stopped one-shot timer (pending promise 0)
keeps promise 0 stored and unresolved, also after a further
`runAll; stopAll; clearAll`. -/
theorem clear_keeps_one_shot_pending_unresolved_witness :
    (getState wStopped 0).repeats = false ∧
    (getState wStopped 0).pending = some 0 ∧
    (Timer.clearTimer wStopped 0).2 = none ∧
    (getState (Timer.clearTimer wStopped 0).1 0).pending = some 0 ∧
    0 ∉ (applyOps (Timer.clearTimer wStopped 0).1
      [Op.runAll, Op.stopAll, Op.clearAll]).resolved := by
  have T := clear_keeps_one_shot_pending_unresolved wStopped 0 0 (by decide) (by decide)
    (by decide) (by decide) (by decide) (by decide) (by decide)
  exact ⟨by decide, by decide, T.1, T.2.1,
    (T.2.2.2 [Op.runAll, Op.stopAll, Op.clearAll]).2⟩

end TimerSpec
